import Mathlib

set_option maxRecDepth 10000

/-!
Shallow embedding of the matching core of the GeoFi-Attend face service
(`src/face_service/app.py`).

Modelling conventions:
* Python/NumPy floating-point values are idealised as exact real numbers (`ℝ`);
  the stored 32-bit template floats are modelled by their bit patterns
  (natural numbers below `2 ^ 32`) together with the exact IEEE-754 binary32
  value `f32val` of a pattern (a rational).
* Byte strings are `List ℕ` with entries below 256; transport strings are
  `List Char`.  `b64encodeBytes`/`b64decode` model `base64.b64encode` /
  `base64.b64decode` (strict alphabet, little-endian float32 layout as
  produced by `ndarray.tobytes` on a little-endian host).
* `np.frombuffer(raw, dtype=np.float32)` fails unless the byte length is a
  multiple of 4; this is `fromBufferF32`, returning `none` in that case.
* `np.dot` on 1-D arrays fails unless the lengths agree; this is
  `cosine_distance` returning `Except`.
* Every exception raised inside an endpoint is surfaced by the service as an
  HTTP 400 client error (`httpStatus`).
* The external collaborators (cv2 image decoding and the insightface
  detector) are abstracted as a `probeOf` argument producing either an error
  or the probe embedding, exactly as `decode_base64_image` composed with
  `get_single_face_embedding` would.
* Python `list.sort(key=area, reverse=True)` is a stable descending sort by
  area; `sortAreaDesc` is a stable insertion sort with the same semantics
  (equal keys keep their original relative order).
-/

namespace FaceService

/-- Error kinds of the service, following the taxonomy of the spec; in the
source each of these is an exception caught and re-raised as HTTP 400. -/
inductive SvcError where
  | decodeError
  | noFaceError
  | emptyEmbeddingError
  | b64Error
  | codecError
  | shapeError
  | noTemplatesError
deriving DecidableEq

/-- Every error of the taxonomy is surfaced as `HTTPException(status_code=400, ...)`. -/
def httpStatus : SvcError → ℕ := fun _ => 400

/-- Whether a request produced a successful response. -/
def isOkE {α : Type} : Except SvcError α → Bool
  | .ok _ => true
  | .error _ => false

/-! ### Base64 transport layer (`base64.b64encode` / `base64.b64decode`) -/

/-- Standard base64 alphabet. -/
def b64chars : List Char :=
  ['A', 'B', 'C', 'D', 'E', 'F', 'G', 'H', 'I', 'J', 'K', 'L', 'M',
   'N', 'O', 'P', 'Q', 'R', 'S', 'T', 'U', 'V', 'W', 'X', 'Y', 'Z',
   'a', 'b', 'c', 'd', 'e', 'f', 'g', 'h', 'i', 'j', 'k', 'l', 'm',
   'n', 'o', 'p', 'q', 'r', 's', 't', 'u', 'v', 'w', 'x', 'y', 'z',
   '0', '1', '2', '3', '4', '5', '6', '7', '8', '9', '+', '/']

/-- Character of a 6-bit group. -/
def b64chr (n : ℕ) : Char := b64chars.getD n 'A'

/-- Index of a character in the base64 alphabet, `none` for foreign characters. -/
def b64index (c : Char) : Option ℕ := b64chars.findIdx? (fun d => d = c)

/-- Base64 encoding of a byte string (`base64.b64encode`), with `=` padding. -/
def b64encodeBytes : List ℕ → List Char
  | [] => []
  | [b0] => [b64chr (b0 / 4), b64chr (b0 % 4 * 16), '=', '=']
  | [b0, b1] => [b64chr (b0 / 4), b64chr (b0 % 4 * 16 + b1 / 16), b64chr (b1 % 16 * 4), '=']
  | b0 :: b1 :: b2 :: rest =>
      b64chr (b0 / 4) :: b64chr (b0 % 4 * 16 + b1 / 16) :: b64chr (b1 % 16 * 4 + b2 / 64) ::
        b64chr (b2 % 64) :: b64encodeBytes rest

/-- Base64 decoding of a transport string (`base64.b64decode`): groups of four
alphabet characters become three bytes, with `=` padding at the end only; any
malformed string yields `none`. -/
def b64decode : List Char → Option (List ℕ)
  | [] => some []
  | c0 :: c1 :: c2 :: c3 :: rest =>
      match b64index c0, b64index c1 with
      | some v0, some v1 =>
        if c2 = '=' then
          if c3 = '=' ∧ rest = [] then some [v0 * 4 + v1 / 16] else none
        else
          match b64index c2 with
          | some v2 =>
            if c3 = '=' then
              if rest = [] then some [v0 * 4 + v1 / 16, v1 % 16 * 16 + v2 / 4] else none
            else
              match b64index c3 with
              | some v3 =>
                match b64decode rest with
                | some bs =>
                    some ((v0 * 4 + v1 / 16) :: (v1 % 16 * 16 + v2 / 4) :: (v2 % 4 * 64 + v3) :: bs)
                | none => none
              | none => none
          | none => none
      | _, _ => none
  | _ => none

/-! ### Float32 byte layer (`ndarray.tobytes` / `np.frombuffer`) -/

/-- Little-endian serialization of 32-bit patterns, four bytes each
(`emb.astype(np.float32).tobytes()`). -/
def toBytesF32 : List ℕ → List ℕ
  | [] => []
  | p :: ps => p % 256 :: p / 256 % 256 :: p / 65536 % 256 :: p / 16777216 % 256 :: toBytesF32 ps

/-- Deserialization of a byte string into 32-bit patterns
(`np.frombuffer(raw, dtype=np.float32)`); fails when the byte length is not a
multiple of the 4-byte element size. -/
def fromBufferF32 : List ℕ → Option (List ℕ)
  | [] => some []
  | b0 :: b1 :: b2 :: b3 :: rest =>
      match fromBufferF32 rest with
      | some ps => some ((b0 + 256 * b1 + 65536 * b2 + 16777216 * b3) :: ps)
      | none => none
  | _ => none

/-- Exact value of an IEEE-754 binary32 bit pattern, as a rational.  Sign bit
31, biased exponent bits 23-30, mantissa bits 0-22; subnormals have value
`±m·2^(-149)`, normals `±(2^23+m)·2^(e-150)`.  The non-finite patterns
(`e = 255`, infinities and NaNs) carry no rational value and are mapped to 0;
they never arise in the claims, which deal with finite embedding data. -/
def f32val (p : ℕ) : ℚ :=
  (if p / 2 ^ 31 % 2 = 0 then 1 else -1) *
    (if p / 2 ^ 23 % 2 ^ 8 = 0 then (p % 2 ^ 23 : ℚ) / 2 ^ 149
     else if p / 2 ^ 23 % 2 ^ 8 = 255 then 0
     else ((2 ^ 23 + p % 2 ^ 23 : ℕ) : ℚ) * 2 ^ (p / 2 ^ 23 % 2 ^ 8) / 2 ^ 150)

/-! ### Detections and primary-face selection -/

/-- Detection as returned by the external embedder: a bounding box
`(x1, y1, x2, y2)` and an optional raw embedding (`f.embedding` may be absent). -/
structure Detection where
  x1 : ℚ
  y1 : ℚ
  x2 : ℚ
  y2 : ℚ
  embedding : Option (List ℚ)
deriving DecidableEq

/-- Bounding-box area key used by the sort:
`(f.bbox[2]-f.bbox[0]) * (f.bbox[3]-f.bbox[1])`. -/
def area (d : Detection) : ℚ := (d.x2 - d.x1) * (d.y2 - d.y1)

/-- Stable descending insertion by area: `d` goes before the first element
whose area is not strictly greater, so earlier elements win ties. -/
def insertAreaDesc (d : Detection) : List Detection → List Detection
  | [] => [d]
  | e :: es => if area d < area e then e :: insertAreaDesc d es else d :: e :: es

/-- Stable descending sort by area, the model of
`faces.sort(key=lambda f: ..., reverse=True)`. -/
def sortAreaDesc : List Detection → List Detection
  | [] => []
  | d :: ds => insertAreaDesc d (sortAreaDesc ds)

/-- Primary-face selection: `if not faces: raise ValueError("no face detected")`,
then sort by area descending and take `faces[0]`. -/
def selectPrimary : List Detection → Except SvcError Detection
  | [] => .error .noFaceError
  | f :: fs => .ok ((sortAreaDesc (f :: fs)).headD f)

/-! ### Real-valued vector layer -/

noncomputable section

/-- Defensive epsilon `1e-9` added to the denominator of every normalization. -/
def EPS : ℝ := 1 / 10 ^ 9

/-- Default cosine-distance threshold of the service. -/
def DEFAULT_THRESHOLD : ℝ := 0.45

/-- Model identifier string returned by both endpoints. -/
def modelId : String := "insightface/buffalo_l"

/-- Sum of squares of a vector. -/
def normSqR (v : List ℝ) : ℝ := (v.map (fun x => x ^ 2)).sum

/-- L2 norm (`np.linalg.norm`). -/
def normR (v : List ℝ) : ℝ := Real.sqrt (normSqR v)

/-- Dot product of two equal-length 1-D arrays (`np.dot`), by truncating zip. -/
def dotR (a b : List ℝ) : ℝ := (List.zipWith (fun x y => x * y) a b).sum

/-- Normalization `emb / (np.linalg.norm(emb) + 1e-9)`. -/
def normalize (v : List ℝ) : List ℝ := v.map (fun x => x / (normR v + EPS))

/-- Real values of a list of float32 bit patterns. -/
def valsR (ps : List ℕ) : List ℝ := ps.map (fun p => ((f32val p : ℚ) : ℝ))

/-- Template encoding `emb_to_b64`: float32 raw bytes, then base64. -/
def emb_to_b64 (ps : List ℕ) : List Char := b64encodeBytes (toBytesF32 ps)

/-- Template decoding `b64_to_emb`: base64 decode, reinterpret as float32
values, then defensively normalize. -/
def b64_to_emb (s : List Char) : Except SvcError (List ℝ) :=
  match b64decode s with
  | none => .error .b64Error
  | some raw =>
    match fromBufferF32 raw with
    | none => .error .codecError
    | some ps => .ok (normalize (valsR ps))

/-- Cosine distance `1 - float(np.dot(a, b))`; `np.dot` raises on mismatched
1-D shapes. -/
def cosine_distance (a b : List ℝ) : Except SvcError ℝ :=
  if a.length = b.length then .ok (1 - dotR a b) else .error .shapeError

/-- Probe extraction `get_single_face_embedding`: fail on no faces, pick the
largest-area face, fail on an absent or empty embedding, then normalize. -/
def get_single_face_embedding (faces : List Detection) : Except SvcError (List ℝ) :=
  match selectPrimary faces with
  | .error e => .error e
  | .ok d =>
    match d.embedding with
    | none => .error .emptyEmbeddingError
    | some emb =>
      if emb = [] then .error .emptyEmbeddingError
      else .ok (normalize (emb.map (fun q => (q : ℝ))))

/-- Match decision `best <= thr` reported in the `"match"` field. -/
def matchDecision (best thr : ℝ) : Bool := decide (best ≤ thr)

/-- Verification outcome: the JSON body of a successful `/verify` response. -/
structure VerifyRes where
  isMatch : Bool
  best_distance : ℝ
  threshold : ℝ
  model : String

/-- Linear scan of `verify`: starting from `best = 999.0`, decode each
template, compute its distance to the probe and keep the strictly smaller
value. -/
def verifyScan (probe : List ℝ) : List (List Char) → ℝ → Except SvcError ℝ
  | [], best => .ok best
  | t :: ts, best =>
    match b64_to_emb t with
    | .error e => .error e
    | .ok emb =>
      match cosine_distance probe emb with
      | .error e => .error e
      | .ok d => verifyScan probe ts (if d < best then d else best)

/-- Value-level linear scan with the same update rule, used to reason about
`verifyScan` once all templates are known to decode. -/
def scanVals : List ℝ → ℝ → ℝ
  | [], b => b
  | d :: ds, b => scanVals ds (if d < b then d else b)

/-- The `/verify` endpoint: reject an empty template list, resolve the
threshold (default 0.45), obtain the probe via the external image pipeline,
run the scan, and report the decision.  `probeOf` abstracts
`decode_base64_image` composed with `get_single_face_embedding`. -/
def verify {Img : Type} (probeOf : Img → Except SvcError (List ℝ)) (img : Img)
    (templates : List (List Char)) (thresholdOpt : Option ℝ) : Except SvcError VerifyRes :=
  if templates = [] then .error .noTemplatesError
  else
    match probeOf img with
    | .error e => .error e
    | .ok probe =>
      match verifyScan probe templates 999 with
      | .error e => .error e
      | .ok best =>
          .ok ⟨matchDecision best (thresholdOpt.getD DEFAULT_THRESHOLD), best,
               thresholdOpt.getD DEFAULT_THRESHOLD, modelId⟩

end

/-! ### Codec lemmas -/

lemma b64index_b64chr : ∀ n < 64, b64index (b64chr n) = some n := by decide

lemma b64chr_ne_pad : ∀ n < 64, b64chr n ≠ '=' := by decide

theorem b64decode_encodeBytes : ∀ bs : List ℕ, (∀ b ∈ bs, b < 256) →
    b64decode (b64encodeBytes bs) = some bs
  | [], _ => rfl
  | [b0], h => by
      have hb0 : b0 < 256 := h b0 (by simp)
      have h1 := b64index_b64chr (b0 / 4) (by omega)
      have h2 := b64index_b64chr (b0 % 4 * 16) (by omega)
      simp only [b64encodeBytes, b64decode, h1, h2]
      simp
      omega
  | [b0, b1], h => by
      have hb0 : b0 < 256 := h b0 (by simp)
      have hb1 : b1 < 256 := h b1 (by simp)
      have h1 := b64index_b64chr (b0 / 4) (by omega)
      have h2 := b64index_b64chr (b0 % 4 * 16 + b1 / 16) (by omega)
      have h3 := b64index_b64chr (b1 % 16 * 4) (by omega)
      have hne := b64chr_ne_pad (b1 % 16 * 4) (by omega)
      simp only [b64encodeBytes, b64decode, h1, h2, h3]
      simp [hne]
      omega
  | b0 :: b1 :: b2 :: rest, h => by
      have hb0 : b0 < 256 := h b0 (by simp)
      have hb1 : b1 < 256 := h b1 (by simp)
      have hb2 : b2 < 256 := h b2 (by simp)
      have h1 := b64index_b64chr (b0 / 4) (by omega)
      have h2 := b64index_b64chr (b0 % 4 * 16 + b1 / 16) (by omega)
      have h3 := b64index_b64chr (b1 % 16 * 4 + b2 / 64) (by omega)
      have h4 := b64index_b64chr (b2 % 64) (by omega)
      have hne3 := b64chr_ne_pad (b1 % 16 * 4 + b2 / 64) (by omega)
      have hne4 := b64chr_ne_pad (b2 % 64) (by omega)
      have ih := b64decode_encodeBytes rest (fun b hb => h b (by simp [hb]))
      simp only [b64encodeBytes, b64decode, h1, h2, h3, h4, ih]
      simp [hne3, hne4]
      omega

lemma toBytesF32_lt : ∀ ps : List ℕ, ∀ b ∈ toBytesF32 ps, b < 256
  | [], _, hb => by simp [toBytesF32] at hb
  | p :: ps, b, hb => by
      simp only [toBytesF32, List.mem_cons] at hb
      rcases hb with h | h | h | h | h
      · omega
      · omega
      · omega
      · omega
      · exact toBytesF32_lt ps b h

theorem fromBuffer_toBytes : ∀ ps : List ℕ, (∀ p ∈ ps, p < 2 ^ 32) →
    fromBufferF32 (toBytesF32 ps) = some ps
  | [], _ => rfl
  | p :: ps, h => by
      have hp : p < 2 ^ 32 := h p (by simp)
      have ih := fromBuffer_toBytes ps (fun q hq => h q (by simp [hq]))
      have e : p % 256 + 256 * (p / 256 % 256) + 65536 * (p / 65536 % 256) +
          16777216 * (p / 16777216 % 256) = p := by omega
      simp [toBytesF32, fromBufferF32, ih, e]

theorem fromBufferF32_not_mod4 : ∀ raw : List ℕ, raw.length % 4 ≠ 0 → fromBufferF32 raw = none
  | [], h => by simp at h
  | [_], _ => rfl
  | [_, _], _ => rfl
  | [_, _, _], _ => rfl
  | _ :: _ :: _ :: _ :: rest, h => by
      have hr : rest.length % 4 ≠ 0 := by simp [List.length_cons] at h ⊢; omega
      simp [fromBufferF32, fromBufferF32_not_mod4 rest hr]

theorem fromBufferF32_length : ∀ raw ps : List ℕ, fromBufferF32 raw = some ps →
    4 * ps.length = raw.length
  | [], ps, h => by
      simp only [fromBufferF32, Option.some.injEq] at h
      subst h
      simp
  | [_], ps, h => by simp [fromBufferF32] at h
  | [_, _], ps, h => by simp [fromBufferF32] at h
  | [_, _, _], ps, h => by simp [fromBufferF32] at h
  | b0 :: b1 :: b2 :: b3 :: rest, ps, h => by
      simp only [fromBufferF32] at h
      cases hr : fromBufferF32 rest with
      | none => rw [hr] at h; simp at h
      | some qs =>
          rw [hr] at h
          simp only [Option.some.injEq] at h
          have := fromBufferF32_length rest qs hr
          subst h
          simp [List.length_cons]
          omega

/-- Round trip of the stored byte layer: decoding an encoded template yields
exactly the re-normalized float values of the encoded patterns. -/
theorem b64_to_emb_emb_to_b64 (ps : List ℕ) (h : ∀ p ∈ ps, p < 2 ^ 32) :
    b64_to_emb (emb_to_b64 ps) = .ok (normalize (valsR ps)) := by
  simp only [b64_to_emb, emb_to_b64, b64decode_encodeBytes _ (toBytesF32_lt ps),
    fromBuffer_toBytes ps h]

/-! ### Vector lemmas -/

lemma EPS_pos : 0 < EPS := by norm_num [EPS]

lemma normSqR_nonneg (v : List ℝ) : 0 ≤ normSqR v := by
  unfold normSqR
  apply List.sum_nonneg
  intro x hx
  simp only [List.mem_map] at hx
  obtain ⟨y, _, rfl⟩ := hx
  positivity

lemma normR_nonneg (v : List ℝ) : 0 ≤ normR v := Real.sqrt_nonneg _

lemma sq_le_normSqR {x : ℝ} {v : List ℝ} (hx : x ∈ v) : x ^ 2 ≤ normSqR v := by
  unfold normSqR
  exact List.single_le_sum
    (by intro y hy; simp only [List.mem_map] at hy; obtain ⟨z, _, rfl⟩ := hy; positivity)
    _ (List.mem_map_of_mem (fun x => x ^ 2) hx)

lemma normSqR_map_div (v : List ℝ) (c : ℝ) :
    normSqR (v.map (fun x => x / c)) = normSqR v / c ^ 2 := by
  induction v with
  | nil => simp [normSqR]
  | cons x vs ih =>
      simp only [List.map_cons, normSqR, List.sum_cons] at ih ⊢
      rw [ih, div_pow, add_div]

lemma dotR_map_div_self (v : List ℝ) (c : ℝ) :
    dotR v (v.map (fun x => x / c)) = normSqR v / c := by
  induction v with
  | nil => simp [dotR, normSqR]
  | cons x vs ih =>
      simp only [List.map_cons, dotR, normSqR, List.zipWith_cons_cons, List.sum_cons] at ih ⊢
      rw [ih, add_div, ← mul_div_assoc, ← pow_two]

lemma normR_map_div (v : List ℝ) {c : ℝ} (hc : 0 ≤ c) :
    normR (v.map (fun x => x / c)) = normR v / c := by
  unfold normR
  rw [normSqR_map_div, Real.sqrt_div (normSqR_nonneg v), Real.sqrt_sq hc]

lemma abs_dotR_le : ∀ a b : List ℝ, |dotR a b| ≤ (normSqR a + normSqR b) / 2
  | [], b => by
      have h := normSqR_nonneg b
      have h0 : dotR [] b = 0 := by simp [dotR]
      have h1 : normSqR ([] : List ℝ) = 0 := by simp [normSqR]
      rw [h0, h1, abs_zero]
      linarith
  | a :: as, [] => by
      have h := normSqR_nonneg (a :: as)
      have h0 : dotR (a :: as) [] = 0 := by simp [dotR]
      have h1 : normSqR ([] : List ℝ) = 0 := by simp [normSqR]
      rw [h0, h1, abs_zero]
      linarith
  | x :: as, y :: bs => by
      have ih := abs_dotR_le as bs
      simp only [dotR, normSqR, List.zipWith_cons_cons, List.map_cons, List.sum_cons] at ih ⊢
      have h1 : |x * y + (List.zipWith (fun x y => x * y) as bs).sum| ≤
          |x * y| + |(List.zipWith (fun x y => x * y) as bs).sum| := abs_add _ _
      have h2 : |x * y| ≤ (x ^ 2 + y ^ 2) / 2 := by
        rw [abs_mul]
        nlinarith [sq_nonneg (|x| - |y|), sq_abs x, sq_abs y, abs_nonneg x, abs_nonneg y]
      calc |x * y + (List.zipWith (fun x y => x * y) as bs).sum|
          ≤ |x * y| + |(List.zipWith (fun x y => x * y) as bs).sum| := h1
        _ ≤ (x ^ 2 + y ^ 2) / 2 +
            ((as.map (fun x => x ^ 2)).sum + (bs.map (fun x => x ^ 2)).sum) / 2 := by
              linarith
        _ = (x ^ 2 + (as.map (fun x => x ^ 2)).sum + (y ^ 2 + (bs.map (fun x => x ^ 2)).sum)) / 2 := by
              ring

lemma normalize_def (v : List ℝ) : normalize v = v.map (fun x => x / (normR v + EPS)) := rfl

lemma length_normalize (v : List ℝ) : (normalize v).length = v.length := by
  simp [normalize]

lemma length_valsR (ps : List ℕ) : (valsR ps).length = ps.length := by
  simp [valsR]

lemma normR_add_EPS_pos (v : List ℝ) : 0 < normR v + EPS :=
  add_pos_of_nonneg_of_pos (normR_nonneg v) EPS_pos

lemma normSqR_normalize_le_one (v : List ℝ) : normSqR (normalize v) ≤ 1 := by
  rw [normalize_def, normSqR_map_div]
  rw [div_le_one (pow_pos (normR_add_EPS_pos v) 2)]
  have hs := normSqR_nonneg v
  have hn : normR v ^ 2 = normSqR v := Real.sq_sqrt hs
  have hn0 := normR_nonneg v
  have he := EPS_pos
  nlinarith

lemma b64_to_emb_ok_shape {s : List Char} {v : List ℝ} (h : b64_to_emb s = .ok v) :
    ∃ ps : List ℕ, v = normalize (valsR ps) := by
  unfold b64_to_emb at h
  cases hd : b64decode s with
  | none => simp only [hd] at h; exact absurd h (by simp)
  | some raw =>
      simp only [hd] at h
      cases hf : fromBufferF32 raw with
      | none => simp only [hf] at h; exact absurd h (by simp)
      | some ps =>
          simp only [hf, Except.ok.injEq] at h
          exact ⟨ps, h.symm⟩

/-! ### Scan and selection lemmas -/

noncomputable section

/-- Decoded value of a template string; `[]` is a dummy for a failing decode,
unused whenever the surrounding statement assumes the decode succeeds. -/
def decodedTemplate (t : List Char) : List ℝ :=
  match b64_to_emb t with
  | .ok v => v
  | .error _ => []

/-- Cosine distance of the probe to a decoded template. -/
def tDist (probe : List ℝ) (t : List Char) : ℝ := 1 - dotR probe (decodedTemplate t)

end

lemma decodedTemplate_eq {t : List Char} {v : List ℝ} (h : b64_to_emb t = .ok v) :
    decodedTemplate t = v := by
  unfold decodedTemplate
  rw [h]

lemma scanVals_first_min {α : Type} (f : α → ℝ) (ts : List α) : ∀ b : ℝ,
    (scanVals (ts.map f) b = b ∧ ∀ t ∈ ts, b ≤ f t) ∨
    (∃ pre t post, ts = pre ++ t :: post ∧ scanVals (ts.map f) b = f t ∧ f t < b ∧
      (∀ u ∈ pre, f t < f u) ∧ (∀ u ∈ post, f t ≤ f u)) := by
  induction ts with
  | nil =>
      intro b
      left
      exact ⟨rfl, by simp⟩
  | cons t ts ih =>
      intro b
      simp only [List.map_cons, scanVals]
      by_cases h : f t < b
      · rw [if_pos h]
        rcases ih (f t) with ⟨h1, h2⟩ | ⟨pre, u, post, hts, hscan, hlt, hpre, hpost⟩
        · right
          exact ⟨[], t, ts, by simp, h1, h, by simp, h2⟩
        · right
          refine ⟨t :: pre, u, post, by simp [hts], hscan, lt_trans hlt h, ?_, hpost⟩
          intro w hw
          rcases List.mem_cons.mp hw with rfl | hw
          · exact hlt
          · exact hpre w hw
      · rw [if_neg h]
        rcases ih b with ⟨h1, h2⟩ | ⟨pre, u, post, hts, hscan, hlt, hpre, hpost⟩
        · left
          refine ⟨h1, ?_⟩
          intro w hw
          rcases List.mem_cons.mp hw with rfl | hw
          · exact le_of_not_lt h
          · exact h2 w hw
        · right
          refine ⟨t :: pre, u, post, by simp [hts], hscan, hlt, ?_, hpost⟩
          intro w hw
          rcases List.mem_cons.mp hw with rfl | hw
          · exact lt_of_lt_of_le hlt (le_of_not_lt h)
          · exact hpre w hw

lemma verifyScan_ok (probe : List ℝ) (ts : List (List Char)) : ∀ b : ℝ,
    (∀ t ∈ ts, ∃ v, b64_to_emb t = .ok v ∧ v.length = probe.length) →
    verifyScan probe ts b = .ok (scanVals (ts.map (tDist probe)) b) := by
  induction ts with
  | nil => intro b _; rfl
  | cons t ts ih =>
      intro b h
      obtain ⟨v, hv, hlen⟩ := h t (by simp)
      have hd : (1 : ℝ) - dotR probe v = tDist probe t := by
        rw [tDist, decodedTemplate_eq hv]
      simp only [verifyScan, hv]
      rw [cosine_distance, if_pos hlen.symm]
      rw [hd]
      simp only [List.map_cons, scanVals]
      rw [ih _ (fun u hu => h u (by simp [hu]))]

lemma tDist_bounds {probe : List ℝ} (hp : normSqR probe ≤ 1) {t : List Char} {v : List ℝ}
    (hv : b64_to_emb t = .ok v) : 0 ≤ tDist probe t ∧ tDist probe t ≤ 2 := by
  obtain ⟨ps, hps⟩ := b64_to_emb_ok_shape hv
  rw [tDist, decodedTemplate_eq hv, hps]
  have h1 := abs_dotR_le probe (normalize (valsR ps))
  have h2 := normSqR_normalize_le_one (valsR ps)
  have h4 : |dotR probe (normalize (valsR ps))| ≤ 1 := le_trans h1 (by linarith)
  have h3 := abs_le.mp h4
  constructor <;> linarith [h3.1, h3.2]

lemma sortAreaDesc_head : ∀ (fs : List Detection) (f : Detection),
    ∃ d ms, sortAreaDesc (f :: fs) = d :: ms ∧
      ∃ pre post, f :: fs = pre ++ d :: post ∧
        (∀ e ∈ f :: fs, area e ≤ area d) ∧ (∀ e ∈ pre, area e < area d)
  | [], f => ⟨f, [], rfl, [], [], rfl, by simp, by simp⟩
  | g :: gs, f => by
      obtain ⟨m, ms, hsort, pre, post, hdec, hmax, hpre⟩ := sortAreaDesc_head gs g
      have hs : sortAreaDesc (f :: g :: gs) = insertAreaDesc f (m :: ms) := by
        rw [sortAreaDesc, hsort]
      by_cases h : area f < area m
      · refine ⟨m, insertAreaDesc f ms, ?_, f :: pre, post, ?_, ?_, ?_⟩
        · rw [hs, insertAreaDesc, if_pos h]
        · simp only [List.cons_append, ← hdec]
        · intro e he
          rcases List.mem_cons.mp he with rfl | he
          · exact le_of_lt h
          · exact hmax e he
        · intro e he
          rcases List.mem_cons.mp he with rfl | he
          · exact h
          · exact hpre e he
      · refine ⟨f, m :: ms, ?_, [], g :: gs, rfl, ?_, by simp⟩
        · rw [hs, insertAreaDesc, if_neg h]
        · intro e he
          rcases List.mem_cons.mp he with rfl | he
          · exact le_refl _
          · exact le_trans (hmax e he) (le_of_not_lt h)

lemma selectPrimary_cons (f : Detection) (fs : List Detection) :
    ∃ d, selectPrimary (f :: fs) = .ok d ∧
      ∃ pre post, f :: fs = pre ++ d :: post ∧
        (∀ e ∈ f :: fs, area e ≤ area d) ∧ (∀ e ∈ pre, area e < area d) := by
  obtain ⟨d, ms, hsort, rest⟩ := sortAreaDesc_head fs f
  refine ⟨d, ?_, rest⟩
  rw [selectPrimary, hsort]
  rfl

/-! ### Claim theorems -/

/-- C2: the decision computed by `verify` for the `"match"` field is
`bestDistance <= threshold` with an inclusive boundary: equality of best
distance and threshold yields a match, and the decision is `false` exactly
when the best distance strictly exceeds the threshold. -/
theorem C2_threshold_inclusive (b t : ℝ) :
    (matchDecision b t = true ↔ b ≤ t) ∧
    (b = t → matchDecision b t = true) ∧
    (matchDecision b t = false ↔ t < b) := by
  unfold matchDecision
  refine ⟨by simp, ?_, ?_⟩
  · rintro rfl
    simp
  · simp [not_le]

/-- Witness for C2 at the boundary case `bestDistance = threshold = 0.45`. -/
theorem C2_witness : (0.45 : ℝ) = 0.45 ∧ matchDecision 0.45 0.45 = true :=
  ⟨rfl, (C2_threshold_inclusive 0.45 0.45).2.1 rfl⟩

/-- C3: on a non-empty detection sequence the primary-face selection returns a
detection whose bounding-box area `(x2-x1)*(y2-y1)` is maximal, and among ties
the one appearing earliest in the input sequence (every detection strictly
before the selected one has strictly smaller area); on the empty sequence it
fails with `NoFaceError`. -/
theorem C3_selectPrimary :
    selectPrimary [] = .error .noFaceError ∧
    ∀ (f : Detection) (fs : List Detection),
      ∃ d pre post, selectPrimary (f :: fs) = .ok d ∧ f :: fs = pre ++ d :: post ∧
        (∀ e ∈ f :: fs, area e ≤ area d) ∧ (∀ e ∈ pre, area e < area d) := by
  refine ⟨rfl, ?_⟩
  intro f fs
  obtain ⟨d, hsel, pre, post, hdec, hmax, hpre⟩ := selectPrimary_cons f fs
  exact ⟨d, pre, post, hsel, hdec, hmax, hpre⟩

/-- Witness for C3 on the spec's example: boxes of area 100 and 400, where the
area-400 detection is selected. -/
theorem C3_witness :
    (∃ d pre post,
      selectPrimary [(⟨0, 0, 10, 10, none⟩ : Detection), ⟨0, 0, 20, 20, none⟩] = .ok d ∧
        ([(⟨0, 0, 10, 10, none⟩ : Detection), ⟨0, 0, 20, 20, none⟩] : List Detection) =
          pre ++ d :: post ∧
        (∀ e ∈ [(⟨0, 0, 10, 10, none⟩ : Detection), ⟨0, 0, 20, 20, none⟩], area e ≤ area d) ∧
        (∀ e ∈ pre, area e < area d)) ∧
    selectPrimary [(⟨0, 0, 10, 10, none⟩ : Detection), ⟨0, 0, 20, 20, none⟩] =
      .ok ⟨0, 0, 20, 20, none⟩ :=
  ⟨C3_selectPrimary.2 ⟨0, 0, 10, 10, none⟩ [⟨0, 0, 20, 20, none⟩],
    by norm_num [selectPrimary, sortAreaDesc, insertAreaDesc, area]⟩

/-- C8: a verify request with an empty template sequence fails with
`NoTemplatesError` (surfaced as HTTP 400) for every image and every behaviour
of the external image-decoding/face-detection pipeline, so the image payload
is never examined before the check. -/
theorem C8_empty_templates {Img1 Img2 : Type} (probeOf1 : Img1 → Except SvcError (List ℝ))
    (probeOf2 : Img2 → Except SvcError (List ℝ)) (img1 : Img1) (img2 : Img2)
    (thr1 thr2 : Option ℝ) :
    verify probeOf1 img1 [] thr1 = .error .noTemplatesError ∧
    verify probeOf1 img1 [] thr1 = verify probeOf2 img2 [] thr2 ∧
    httpStatus .noTemplatesError = 400 :=
  ⟨rfl, rfl, rfl⟩

/-- C10: verify performs no range validation on the threshold: whether the
request succeeds does not depend on the supplied threshold, and a successful
outcome reports exactly the supplied threshold (0.45 when absent) together
with the `bestDistance <= threshold` decision on it. -/
theorem C10_threshold_passthrough {Img : Type} (probeOf : Img → Except SvcError (List ℝ))
    (img : Img) (ts : List (List Char)) (t1 t2 : Option ℝ) :
    (isOkE (verify probeOf img ts t1) = isOkE (verify probeOf img ts t2)) ∧
    (∀ o, verify probeOf img ts t1 = .ok o →
      o.threshold = t1.getD DEFAULT_THRESHOLD ∧ DEFAULT_THRESHOLD = 0.45 ∧
      o.isMatch = matchDecision o.best_distance o.threshold) := by
  unfold verify
  by_cases hts : ts = []
  · subst hts
    exact ⟨rfl, fun o ho => absurd ho (by simp)⟩
  · rw [if_neg hts, if_neg hts]
    cases hp : probeOf img with
    | error e =>
        exact ⟨by simp [hp], fun o ho => by simp [hp] at ho⟩
    | ok probe =>
        cases hs : verifyScan probe ts 999 with
        | error e =>
            exact ⟨by simp [hp, hs], fun o ho => by simp [hp, hs] at ho⟩
        | ok best =>
            refine ⟨by simp [hp, hs, isOkE], ?_⟩
            intro o ho
            simp only [hp, hs, Except.ok.injEq] at ho
            subst ho
            exact ⟨rfl, rfl, rfl⟩

lemma fromBufferF32_mod4 : ∀ raw : List ℕ, raw.length % 4 = 0 →
    ∃ ps, fromBufferF32 raw = some ps
  | [], _ => ⟨[], rfl⟩
  | [_], h => by simp at h
  | [_, _], h => by simp at h
  | [_, _, _], h => by simp at h
  | b0 :: b1 :: b2 :: b3 :: rest, h => by
      obtain ⟨ps, hps⟩ := fromBufferF32_mod4 rest (by simp [List.length_cons] at h ⊢; omega)
      refine ⟨(b0 + 256 * b1 + 65536 * b2 + 16777216 * b3) :: ps, ?_⟩
      simp [fromBufferF32, hps]

/-- C7: a template transport string whose base64 payload decodes to a byte
length that is not a multiple of 4 — any such length, not only odd ones —
fails to decode with the codec error raised at the `np.frombuffer` step, and a
verify request carrying such a template fails with that error, surfaced to the
caller as an HTTP 400 client error. -/
theorem C7_codec_length (s : List Char) (raw : List ℕ)
    (hdec : b64decode s = some raw) (hlen : raw.length % 4 ≠ 0) :
    b64_to_emb s = .error .codecError ∧ httpStatus .codecError = 400 ∧
    ∀ {Img : Type} (probeOf : Img → Except SvcError (List ℝ)) (img : Img) (probe : List ℝ)
      (thr : Option ℝ), probeOf img = .ok probe →
      verify probeOf img [s] thr = .error .codecError := by
  have hb : b64_to_emb s = .error .codecError := by
    simp only [b64_to_emb, hdec, fromBufferF32_not_mod4 raw hlen]
  refine ⟨hb, rfl, ?_⟩
  intro Img probeOf img probe thr hp
  unfold verify
  rw [if_neg (by simp)]
  simp only [hp, verifyScan, hb]

/-- Witness for C7 on the even (not merely odd) byte length 2: the string
`"AAA="` decodes to two zero bytes and is rejected. -/
theorem C7_witness :
    b64decode ['A', 'A', 'A', '='] = some [0, 0] ∧ ([0, 0] : List ℕ).length % 4 ≠ 0 ∧
    b64_to_emb ['A', 'A', 'A', '='] = .error .codecError :=
  ⟨by decide, by decide, (C7_codec_length ['A', 'A', 'A', '='] [0, 0] (by decide) (by decide)).1⟩

/-- C9: a template whose base64 payload has byte length a multiple of 4
decodes successfully into length/4 floats — decoding performs no check that
this count equals the probe length L = 512, and the empty payload yields zero
floats — and a verify request pairing such a template of a different float
count with a 512-float probe fails at the dot-product step with a shape
error, surfaced as HTTP 400, instead of returning a verification outcome. -/
theorem C9_length_mismatch (raw : List ℕ) (hb : ∀ b ∈ raw, b < 256)
    (hmod : raw.length % 4 = 0) (hne : raw.length ≠ 4 * 512) :
    (∃ v, b64_to_emb (b64encodeBytes raw) = .ok v ∧ 4 * v.length = raw.length) ∧
    httpStatus .shapeError = 400 ∧
    ∀ {Img : Type} (probeOf : Img → Except SvcError (List ℝ)) (img : Img) (probe : List ℝ)
      (thr : Option ℝ), probeOf img = .ok probe → probe.length = 512 →
      verify probeOf img [b64encodeBytes raw] thr = .error .shapeError := by
  obtain ⟨ps, hps⟩ := fromBufferF32_mod4 raw hmod
  have hlen4 : 4 * ps.length = raw.length := fromBufferF32_length raw ps hps
  have hok : b64_to_emb (b64encodeBytes raw) = .ok (normalize (valsR ps)) := by
    simp only [b64_to_emb, b64decode_encodeBytes raw hb, hps]
  refine ⟨⟨normalize (valsR ps), hok, ?_⟩, rfl, ?_⟩
  · rw [length_normalize, length_valsR, hlen4]
  · intro Img probeOf img probe thr hp hplen
    have hmismatch : probe.length ≠ (normalize (valsR ps)).length := by
      rw [length_normalize, length_valsR, hplen]
      omega
    unfold verify
    rw [if_neg (by simp)]
    simp only [hp, verifyScan, hok]
    rw [cosine_distance, if_neg hmismatch]

/-- Witness for C9 on the empty payload: it decodes to zero floats, and a
verify request with a 512-float probe and the empty-payload template fails
with a shape error. -/
theorem C9_witness :
    (([] : List ℕ).length % 4 = 0 ∧ ([] : List ℕ).length ≠ 4 * 512) ∧
    (∃ v, b64_to_emb (b64encodeBytes []) = .ok v ∧ 4 * v.length = ([] : List ℕ).length) ∧
    verify (fun _ : Unit => .ok (List.replicate 512 (0 : ℝ))) () [b64encodeBytes []] none =
      .error .shapeError :=
  ⟨⟨by decide, by decide⟩,
   (C9_length_mismatch [] (by simp) (by decide) (by decide)).1,
   (C9_length_mismatch [] (by simp) (by decide) (by decide)).2.2 _ () _ none rfl (by simp)⟩

/-- C1: for a probe embedding (sum of squares at most 1, as every normalized
embedding has) and a non-empty sequence of decodable templates whose float
counts match the probe, the linear scan of `verify` returns exactly the
minimum of the pairwise distances between the probe and the decoded templates
— never a value below that minimum — and the returned value is attained by
the earliest minimizing template in iteration order: every template strictly
before it has strictly greater distance. -/
theorem C1_bestMatch_min (probe : List ℝ) (ts : List (List Char)) (hne : ts ≠ [])
    (hp : normSqR probe ≤ 1)
    (hdec : ∀ t ∈ ts, ∃ v, b64_to_emb t = .ok v ∧ v.length = probe.length) :
    ∃ pre t post, ts = pre ++ t :: post ∧
      verifyScan probe ts 999 = .ok (tDist probe t) ∧
      (∀ u ∈ ts, tDist probe t ≤ tDist probe u) ∧
      (∀ u ∈ pre, tDist probe t < tDist probe u) := by
  rcases scanVals_first_min (tDist probe) ts 999 with ⟨h1, h2⟩ |
    ⟨pre, t, post, hts, hscan, hlt, hpre, hpost⟩
  · rcases ts with _ | ⟨t, ts'⟩
    · exact absurd rfl hne
    · obtain ⟨v, hv, _⟩ := hdec t (by simp)
      have hb := tDist_bounds hp hv
      have h999 := h2 t (by simp)
      linarith [hb.2]
  · refine ⟨pre, t, post, hts, ?_, ?_, hpre⟩
    · rw [verifyScan_ok probe ts 999 hdec, hscan]
    · intro u hu
      rw [hts] at hu
      rcases List.mem_append.mp hu with hu | hu
      · exact le_of_lt (hpre u hu)
      · rcases List.mem_cons.mp hu with rfl | hu
        · exact le_refl _
        · exact hpost u hu

/-- Witness for C1: the zero probe `[0]` against the single template encoding
the float32 pattern 0. -/
theorem C1_witness :
    ([emb_to_b64 [0]] : List (List Char)) ≠ [] ∧ normSqR [(0 : ℝ)] ≤ 1 ∧
    ∃ pre t post, ([emb_to_b64 [0]] : List (List Char)) = pre ++ t :: post ∧
      verifyScan [(0 : ℝ)] [emb_to_b64 [0]] 999 = .ok (tDist [(0 : ℝ)] t) ∧
      (∀ u ∈ [emb_to_b64 [0]], tDist [(0 : ℝ)] t ≤ tDist [(0 : ℝ)] u) ∧
      (∀ u ∈ pre, tDist [(0 : ℝ)] t < tDist [(0 : ℝ)] u) := by
  refine ⟨by simp, by norm_num [normSqR], ?_⟩
  apply C1_bestMatch_min [(0 : ℝ)] [emb_to_b64 [0]] (by simp) (by norm_num [normSqR])
  intro t ht
  simp only [List.mem_singleton] at ht
  subst ht
  refine ⟨normalize (valsR [0]), b64_to_emb_emb_to_b64 [0] (by simp), ?_⟩
  rw [length_normalize, length_valsR]
  rfl

/-- Counterexample to C4: the nonzero 512-float vector `(1e-9, 0, ..., 0)`
normalizes under `v / (||v|| + 1e-9)` to `(1/2, 0, ..., 0)`, whose L2 norm
1/2 is not within ε = 1e-9 of 1. -/
theorem C4_cex :
    ((1 / 10 ^ 9 : ℝ) :: List.replicate 511 0).length = 512 ∧
    (1 / 10 ^ 9 : ℝ) :: List.replicate 511 0 ≠ List.replicate 512 (0 : ℝ) ∧
    normR (normalize ((1 / 10 ^ 9 : ℝ) :: List.replicate 511 0)) = 1 / 2 ∧
    ¬ |normR (normalize ((1 / 10 ^ 9 : ℝ) :: List.replicate 511 0)) - 1| ≤ EPS := by
  have hns : normSqR ((1 / 10 ^ 9 : ℝ) :: List.replicate 511 0) = (1 / 10 ^ 9) ^ 2 := by
    simp [normSqR]
  have hn : normR ((1 / 10 ^ 9 : ℝ) :: List.replicate 511 0) = 1 / 10 ^ 9 := by
    rw [normR, hns, Real.sqrt_sq (by norm_num)]
  have hnorm : normalize ((1 / 10 ^ 9 : ℝ) :: List.replicate 511 0) =
      (1 / 2 : ℝ) :: List.replicate 511 0 := by
    rw [normalize_def, hn]
    simp only [List.map_cons, List.map_replicate, zero_div]
    norm_num [EPS]
  have hns2 : normSqR ((1 / 2 : ℝ) :: List.replicate 511 0) = (1 / 2) ^ 2 := by
    simp [normSqR]
  have hfinal : normR (normalize ((1 / 10 ^ 9 : ℝ) :: List.replicate 511 0)) = 1 / 2 := by
    rw [hnorm, normR, hns2, Real.sqrt_sq (by norm_num)]
  refine ⟨by simp, ?_, hfinal, ?_⟩
  · intro hcontra
    have h512 : List.replicate 512 (0 : ℝ) = 0 :: List.replicate 511 0 := rfl
    rw [h512] at hcontra
    injection hcontra with h1 h2
    norm_num at h1
  · rw [hfinal, show (1 : ℝ) / 2 - 1 = -(1 / 2) by norm_num, abs_neg,
      abs_of_nonneg (by norm_num : (0 : ℝ) ≤ 1 / 2)]
    norm_num [EPS]

/-- C4 amended: for every vector of length L = 512 whose L2 norm is at least
1 - ε (ε = 1e-9) — in particular every vector of norm at least 1 — the
normalizer output `v / (||v|| + ε)` has L2 norm within ε of 1; in general the
output norm is `||v|| / (||v|| + ε)`, which for small nonzero vectors falls
short of 1 by more than ε (see the counterexample). -/
theorem C4_normalize_norm (v : List ℝ) (_hL : v.length = 512) (hn : 1 - EPS ≤ normR v) :
    normR (normalize v) = normR v / (normR v + EPS) ∧
    |normR (normalize v) - 1| ≤ EPS := by
  have hpos := normR_add_EPS_pos v
  have h0 := normR_nonneg v
  have he := EPS_pos
  have heq : normR (normalize v) = normR v / (normR v + EPS) := by
    rw [normalize_def, normR_map_div v (le_of_lt hpos)]
  refine ⟨heq, ?_⟩
  have key : normR v / (normR v + EPS) - 1 = -(EPS / (normR v + EPS)) := by
    field_simp
  rw [heq, key, abs_neg, abs_of_nonneg (le_of_lt (div_pos he hpos))]
  rw [div_le_iff₀ hpos]
  nlinarith

/-- Witness for C4 on the unit vector `(1, 0, ..., 0)` of 512 floats. -/
theorem C4_witness :
    ((1 : ℝ) :: List.replicate 511 0).length = 512 ∧
    1 - EPS ≤ normR ((1 : ℝ) :: List.replicate 511 0) ∧
    |normR (normalize ((1 : ℝ) :: List.replicate 511 0)) - 1| ≤ EPS := by
  have hns : normSqR ((1 : ℝ) :: List.replicate 511 0) = 1 := by simp [normSqR]
  have hn : normR ((1 : ℝ) :: List.replicate 511 0) = 1 := by
    rw [normR, hns, Real.sqrt_one]
  have h1 : 1 - EPS ≤ normR ((1 : ℝ) :: List.replicate 511 0) := by
    rw [hn]
    norm_num [EPS]
  exact ⟨by simp, h1, (C4_normalize_norm _ (by simp) h1).2⟩

/-! ### Round-trip and self-match facts -/

lemma f32val_one : f32val 1065353216 = 1 := by norm_num [f32val]

lemma f32val_zero : f32val 0 = 0 := by norm_num [f32val]

lemma valsR_unit512 :
    valsR (1065353216 :: List.replicate 511 0) = (1 : ℝ) :: List.replicate 511 0 := by
  simp [valsR, f32val_one, f32val_zero, List.map_replicate]

lemma pats_unit512_lt : ∀ p ∈ 1065353216 :: List.replicate 511 0, p < 2 ^ 32 := by
  intro p hp
  rcases List.mem_cons.mp hp with rfl | hp
  · norm_num
  · rw [List.eq_of_mem_replicate hp]
    norm_num

lemma normSq_unit512 : normSqR (valsR (1065353216 :: List.replicate 511 0)) = 1 := by
  rw [valsR_unit512]
  simp [normSqR]

/-- Outcome of a verify call whose single template is the encoding of the
unit-norm probe itself: the best distance is exactly `ε/(1+ε)`, because the
decoded template is defensively re-normalized and thereby shrunk by the
factor `1/(1+ε)`. -/
lemma verify_self (ps : List ℕ) (h32 : ∀ p ∈ ps, p < 2 ^ 32)
    (hunit : normSqR (valsR ps) = 1) {Img : Type}
    (probeOf : Img → Except SvcError (List ℝ)) (img : Img)
    (hp : probeOf img = .ok (valsR ps)) (thr : Option ℝ) :
    verify probeOf img [emb_to_b64 ps] thr =
      .ok ⟨matchDecision (EPS / (1 + EPS)) (thr.getD DEFAULT_THRESHOLD), EPS / (1 + EPS),
           thr.getD DEFAULT_THRESHOLD, modelId⟩ := by
  have hok := b64_to_emb_emb_to_b64 ps h32
  have hn : normR (valsR ps) = 1 := by rw [normR, hunit, Real.sqrt_one]
  have hmap : normalize (valsR ps) = (valsR ps).map (fun x => x / (1 + EPS)) := by
    rw [normalize_def, hn]
  have hdot : dotR (valsR ps) (normalize (valsR ps)) = 1 / (1 + EPS) := by
    rw [hmap, dotR_map_div_self, hunit]
  have hlen : (valsR ps).length = (normalize (valsR ps)).length := (length_normalize _).symm
  have h1eps : (0 : ℝ) < 1 + EPS := by norm_num [EPS]
  have hdist : cosine_distance (valsR ps) (normalize (valsR ps)) = .ok (EPS / (1 + EPS)) := by
    rw [cosine_distance, if_pos hlen, hdot]
    congr 1
    field_simp
  have hd999 : EPS / (1 + EPS) < 999 := by
    rw [div_lt_iff₀ h1eps]
    norm_num [EPS]
  unfold verify
  rw [if_neg (by simp)]
  simp only [hp, verifyScan, hok, hdist, if_pos hd999]

/-- C5: decoding an encoded embedding recovers exactly the re-normalized
embedding, `decode(encode(v)) = normalize(v)`; on input of unit L2 norm the
defensive re-normalization only rescales by `1/(1+ε)` with ε = 1e-9, so every
component of the round trip agrees with the original within ε — encode
followed by decode is a round trip on normalized embeddings up to ε. -/
theorem C5_roundtrip (ps : List ℕ) (h32 : ∀ p ∈ ps, p < 2 ^ 32) :
    b64_to_emb (emb_to_b64 ps) = .ok (normalize (valsR ps)) ∧
    (normSqR (valsR ps) = 1 →
      normalize (valsR ps) = (valsR ps).map (fun x => x / (1 + EPS)) ∧
      ∀ i : ℕ, |(normalize (valsR ps)).getD i 0 - (valsR ps).getD i 0| ≤ EPS) := by
  refine ⟨b64_to_emb_emb_to_b64 ps h32, ?_⟩
  intro hunit
  have he := EPS_pos
  have h1eps : (0 : ℝ) < 1 + EPS := by linarith
  have hn : normR (valsR ps) = 1 := by rw [normR, hunit, Real.sqrt_one]
  have hmap : normalize (valsR ps) = (valsR ps).map (fun x => x / (1 + EPS)) := by
    rw [normalize_def, hn]
  refine ⟨hmap, ?_⟩
  intro i
  rw [hmap]
  cases hx : (valsR ps)[i]? with
  | none =>
      have h1 : (List.map (fun x => x / (1 + EPS)) (valsR ps)).getD i 0 = 0 := by
        rw [List.getD_eq_getElem?_getD, List.getElem?_map, hx]
        rfl
      have h2 : (valsR ps).getD i 0 = 0 := by
        rw [List.getD_eq_getElem?_getD, hx]
        rfl
      rw [h1, h2]
      simp [le_of_lt he]
  | some x =>
      have hmem : x ∈ valsR ps := List.getElem?_mem hx
      have hx2 : x ^ 2 ≤ 1 := by
        rw [← hunit]
        exact sq_le_normSqR hmem
      have hxabs : |x| ≤ 1 := (sq_le_one_iff_abs_le_one x).mp hx2
      have h1 : (List.map (fun x => x / (1 + EPS)) (valsR ps)).getD i 0 = x / (1 + EPS) := by
        rw [List.getD_eq_getElem?_getD, List.getElem?_map, hx]
        rfl
      have h2 : (valsR ps).getD i 0 = x := by
        rw [List.getD_eq_getElem?_getD, hx]
        rfl
      rw [h1, h2]
      have key : x / (1 + EPS) - x = -(x * (EPS / (1 + EPS))) := by
        field_simp
        ring
      rw [key, abs_neg, abs_mul, abs_of_nonneg (le_of_lt (div_pos he h1eps))]
      calc |x| * (EPS / (1 + EPS)) ≤ 1 * (EPS / (1 + EPS)) :=
            mul_le_mul_of_nonneg_right hxabs (le_of_lt (div_pos he h1eps))
        _ = EPS / (1 + EPS) := one_mul _
        _ ≤ EPS := by
            rw [div_le_iff₀ h1eps]
            nlinarith

/-- Witness for C5 on the single-float embedding encoding the value 1.0f. -/
theorem C5_witness :
    (∀ p ∈ [1065353216], p < 2 ^ 32) ∧ normSqR (valsR [1065353216]) = 1 ∧
    b64_to_emb (emb_to_b64 [1065353216]) = .ok (normalize (valsR [1065353216])) ∧
    ∀ i : ℕ,
      |(normalize (valsR [1065353216])).getD i 0 - (valsR [1065353216]).getD i 0| ≤ EPS := by
  have hv : valsR [1065353216] = [(1 : ℝ)] := by simp [valsR, f32val_one]
  have hns : normSqR (valsR [1065353216]) = 1 := by
    rw [hv]
    simp [normSqR]
  have h32 : ∀ p ∈ [1065353216], p < 2 ^ 32 := by
    intro p hp
    simp only [List.mem_singleton] at hp
    subst hp
    norm_num
  exact ⟨h32, hns, (C5_roundtrip _ h32).1, fun i => ((C5_roundtrip _ h32).2 hns).2 i⟩

/-- C6 amended: a probe of unit norm encoded and passed back as the single
template of a verify request gives `bestDistance = ε/(1+ε)` with ε = 1e-9 —
positive but at most ε, hence approximately 0 — and the reported match is
`bestDistance <= threshold`, true for every threshold ≥ ε but false for
threshold exactly 0, because the defensive re-normalization of the decoded
template shrinks it by the factor `1/(1+ε)` and leaves a strictly positive
distance. -/
theorem C6_self_match (ps : List ℕ) (h32 : ∀ p ∈ ps, p < 2 ^ 32)
    (hunit : normSqR (valsR ps) = 1) {Img : Type}
    (probeOf : Img → Except SvcError (List ℝ)) (img : Img)
    (hp : probeOf img = .ok (valsR ps)) (thr : ℝ) :
    verify probeOf img [emb_to_b64 ps] (some thr) =
      .ok ⟨matchDecision (EPS / (1 + EPS)) thr, EPS / (1 + EPS), thr, modelId⟩ ∧
    0 < EPS / (1 + EPS) ∧ EPS / (1 + EPS) ≤ EPS ∧
    (EPS ≤ thr → matchDecision (EPS / (1 + EPS)) thr = true) ∧
    matchDecision (EPS / (1 + EPS)) 0 = false := by
  have he := EPS_pos
  have h1eps : (0 : ℝ) < 1 + EPS := by linarith
  have hpos : 0 < EPS / (1 + EPS) := div_pos he h1eps
  have hle : EPS / (1 + EPS) ≤ EPS := by
    rw [div_le_iff₀ h1eps]
    nlinarith
  refine ⟨verify_self ps h32 hunit probeOf img hp (some thr), hpos, hle, ?_, ?_⟩
  · intro hthr
    unfold matchDecision
    simp only [decide_eq_true_iff]
    linarith
  · unfold matchDecision
    simp only [decide_eq_false_iff_not, not_le]
    exact hpos

/-- Counterexample to C6: the unit-norm 512-float probe `(1, 0, ..., 0)`,
encoded and passed back as its own single template, with threshold exactly 0
(a threshold ≥ 0): the reported match is `false`, refuting the claim that
match is true for any threshold ≥ 0, because the best distance `ε/(1+ε)` is
strictly positive. -/
theorem C6_cex :
    (0 : ℝ) ≤ 0 ∧
    verify (fun _ : Unit => .ok (valsR (1065353216 :: List.replicate 511 0))) ()
        [emb_to_b64 (1065353216 :: List.replicate 511 0)] (some 0) =
      .ok ⟨false, EPS / (1 + EPS), 0, modelId⟩ ∧
    0 < EPS / (1 + EPS) := by
  have he := EPS_pos
  have h1eps : (0 : ℝ) < 1 + EPS := by linarith
  have hpos : 0 < EPS / (1 + EPS) := div_pos he h1eps
  have hfalse : matchDecision (EPS / (1 + EPS)) 0 = false := by
    unfold matchDecision
    simp only [decide_eq_false_iff_not, not_le]
    exact hpos
  have := verify_self (1065353216 :: List.replicate 511 0) pats_unit512_lt normSq_unit512
    (fun _ : Unit => .ok (valsR (1065353216 :: List.replicate 511 0))) () rfl (some 0)
  rw [Option.getD_some] at this
  rw [this, hfalse]
  exact ⟨le_refl 0, rfl, hpos⟩

/-- Witness for C6 (amended) on the unit 512-float probe with threshold 1. -/
theorem C6_witness :
    (∀ p ∈ 1065353216 :: List.replicate 511 0, p < 2 ^ 32) ∧
    normSqR (valsR (1065353216 :: List.replicate 511 0)) = 1 ∧
    verify (fun _ : Unit => .ok (valsR (1065353216 :: List.replicate 511 0))) ()
        [emb_to_b64 (1065353216 :: List.replicate 511 0)] (some 1) =
      .ok ⟨matchDecision (EPS / (1 + EPS)) 1, EPS / (1 + EPS), 1, modelId⟩ ∧
    matchDecision (EPS / (1 + EPS)) 1 = true := by
  have h := C6_self_match (1065353216 :: List.replicate 511 0) pats_unit512_lt normSq_unit512
    (fun _ : Unit => .ok (valsR (1065353216 :: List.replicate 511 0))) () rfl 1
  exact ⟨pats_unit512_lt, normSq_unit512, h.1, h.2.2.2.1 (by norm_num [EPS])⟩

/-- Witness for C10: a successful verify call with supplied threshold 1
reports that threshold and the decision on it, and succeeds exactly when the
same call with the threshold absent does. -/
theorem C10_witness :
    (isOkE (verify (fun _ : Unit => .ok (valsR (1065353216 :: List.replicate 511 0))) ()
        [emb_to_b64 (1065353216 :: List.replicate 511 0)] (some 1)) =
      isOkE (verify (fun _ : Unit => .ok (valsR (1065353216 :: List.replicate 511 0))) ()
        [emb_to_b64 (1065353216 :: List.replicate 511 0)] none)) ∧
    (⟨matchDecision (EPS / (1 + EPS)) 1, EPS / (1 + EPS), 1, modelId⟩ : VerifyRes).threshold =
      (some (1 : ℝ)).getD DEFAULT_THRESHOLD ∧
    (⟨matchDecision (EPS / (1 + EPS)) 1, EPS / (1 + EPS), 1, modelId⟩ : VerifyRes).isMatch =
      matchDecision (EPS / (1 + EPS)) 1 := by
  have hv := verify_self (1065353216 :: List.replicate 511 0) pats_unit512_lt normSq_unit512
    (fun _ : Unit => .ok (valsR (1065353216 :: List.replicate 511 0))) () rfl (some 1)
  rw [Option.getD_some] at hv
  have h := C10_threshold_passthrough
    (fun _ : Unit => .ok (valsR (1065353216 :: List.replicate 511 0))) ()
    [emb_to_b64 (1065353216 :: List.replicate 511 0)] (some 1) none
  exact ⟨h.1, (h.2 _ hv).1, (h.2 _ hv).2.2⟩

end FaceService
